import Mathlib

set_option maxRecDepth 2000

/-!
Verification development for the serverless-s3-ferry directory-to-bucket
synchronization engine.  The TypeScript sources are shallowly embedded as
executable Lean functions:

* JavaScript objects used as string-keyed records become association lists
  (`List (String × String)`) with `Object.assign` / property-delete semantics
  modelled explicitly (update-in-place-or-append, preserving insertion order).
* The S3 client, the `minimatch` glob matcher and the MD5 digest are external
  collaborators; they are modelled as oracle function parameters, and the
  commands an engine sends to the client are collected into explicit traces.
* File-system paths are modelled as lists of POSIX path segments; the string
  form of a path joins the segments with a forward slash.
* `async`/`await` code that issues its requests sequentially (or whose
  per-item work is independent) is modelled by explicit state passing.
-/

namespace S3Ferry

/-! ## JavaScript object operations on string-keyed records -/

/-- One key/value assignment on a JS object: if the key exists the value is
updated in place (insertion order preserved), otherwise the pair is appended. -/
def objSet (m : List (String × String)) (kv : String × String) :
    List (String × String) :=
  if m.any (fun p => p.1 = kv.1) then
    m.map (fun p => if p.1 = kv.1 then (p.1, kv.2) else p)
  else
    m ++ [kv]

/-- `Object.assign(m, n)`: fold every property of `n` into `m`. -/
def objAssign (m n : List (String × String)) : List (String × String) :=
  n.foldl objSet m

/-- `delete m[k]`. -/
def objDelete (m : List (String × String)) (k : String) :
    List (String × String) :=
  m.filter (fun p => p.1 ≠ k)

/-- `m[k]` under JS truthiness for string values: an absent key and an empty
string are both falsy, so they read as "no value". -/
def truthyLookup (m : List (String × String)) (k : String) : Option String :=
  match m.lookup k with
  | some v => if v = "" then none else some v
  | none => none

/-! ## Constants (src/shared/constants) -/

def ONLY_FOR_STAGE_KEY : String := "OnlyForStage"

def S3_DELETE_BATCH_SIZE : Nat := 1000

def S3_MAX_SIMPLE_COPY_SIZE : Nat := 5 * 1024 * 1024 * 1024

def S3_MULTIPART_COPY_PART_SIZE : Nat := 500 * 1024 * 1024

def IGNORED_FILE_NAMES : List String := [".DS_Store"]

/-! ## Progress tracker (src/shared/utils/progress.ts)

`createProgressTracker` keeps a mutable `percent` (initially 0).  Each
`update(amount, total)` call computes
`Math.round((amount / total) * 10) * 10` and forwards the new percentage to
the progress sink only when it strictly exceeds the remembered one.  For
non-negative rationals `Math.round (a / b) = ⌊(2a + b) / (2b)⌋`. -/

/-- `Math.round((amount / total) * 10) * 10` for natural inputs, `total > 0`. -/
def roundedTenth (amount total : Nat) : Nat :=
  ((20 * amount + total) / (2 * total)) * 10

/-- One `update(amount, total)` call: returns the new remembered percent and
the forwarded percentage, if any. -/
def trackerStep (percent : Nat) (amount total : Nat) : Nat × Option Nat :=
  if total = 0 then
    (percent, none)
  else
    let current := roundedTenth amount total
    if percent < current then (current, some current) else (percent, none)

/-- Run a sequence of `update` calls against a freshly created tracker
starting from a remembered percent, collecting every forwarded percentage in
order. -/
def trackerRunFrom (percent : Nat) : List (Nat × Nat) → List Nat
  | [] => []
  | (amount, total) :: rest =>
    match trackerStep percent amount total with
    | (p, some c) => c :: trackerRunFrom p rest
    | (p, none) => trackerRunFrom p rest

/-- The percentages a fresh tracker (remembered percent 0) forwards for a
given call sequence. -/
def trackerRun (calls : List (Nat × Nat)) : List Nat :=
  trackerRunFrom 0 calls

/-! ## Parameter resolver (src/shared/utils/s3-params.ts)

`resolveS3Params` folds an ordered rule list over an accumulator object,
tracking the `OnlyForStage` restriction of the last matching rule (a later
matching rule without a truthy restriction clears it) and whether any rule
matched at all.  The glob matcher (`minimatch`) is an external library and is
passed in as the oracle `mm relativePath glob`. -/

structure ParamMatcher where
  glob : String
  params : List (String × String)
deriving DecidableEq, Repr

/-- State of the rule-processing loop: accumulated params, the currently
recorded stage restriction, and whether any rule has matched. -/
structure ResolveState where
  s3Params : List (String × String)
  onlyForStage : Option String
  hasMatch : Bool
deriving DecidableEq, Repr

/-- One iteration of the `for (const param of params)` loop. -/
def resolveStep (mm : String → String → Bool) (relativePath : String)
    (st : ResolveState) (param : ParamMatcher) : ResolveState :=
  if mm relativePath param.glob then
    { s3Params := objAssign st.s3Params param.params
      onlyForStage :=
        match truthyLookup param.params ONLY_FOR_STAGE_KEY with
        | some v => some v
        | none => none
      hasMatch := true }
  else
    st

/-- `resolveS3Params` from src/shared/utils/s3-params.ts.  `params = none`
models an absent `params` option. -/
def resolveS3Params (mm : String → String → Bool) (relativePath : String)
    (params : Option (List ParamMatcher)) (stage : Option String)
    (skipUnmatched : Bool) : Option (List (String × String)) :=
  match params with
  | none => if skipUnmatched then none else some []
  | some ps =>
    if ps.isEmpty then
      if skipUnmatched then none else some []
    else
      let st := ps.foldl (resolveStep mm relativePath)
        ⟨[], none, false⟩
      if skipUnmatched && !st.hasMatch then
        none
      else
        let cleaned := objDelete st.s3Params ONLY_FOR_STAGE_KEY
        match st.onlyForStage with
        | some v => if stage = some v then some cleaned else none
        | none => some cleaned

/-! ## Bucket tag merger (tags module: `mergeTags`, `updateBucketTags`)

A `Tag` is a `{ Key, Value }` record.  `mergeTags` mutates the existing tag
set: for each tag to merge, `existingTagSet.find` locates the first tag with
the same key and its `Value` field is overwritten in place; otherwise the tag
is pushed at the end. -/

/-- Overwrite the `Value` of the first tag with the given key, leaving the
rest of the list unchanged (the JS `find` + field assignment). -/
def updFirst : List (String × String) → String × String →
    List (String × String)
  | [], _ => []
  | e :: rest, t =>
    if e.1 = t.1 then (e.1, t.2) :: rest else e :: updFirst rest t

/-- One iteration of the `for (const tag of tagsToMerge)` loop. -/
def mergeOneTag (acc : List (String × String)) (tag : String × String) :
    List (String × String) :=
  if acc.any (fun et => et.1 = tag.1) then updFirst acc tag else acc ++ [tag]

/-- `mergeTags(existingTagSet, tagsToMerge)`, returning the mutated set. -/
def mergeTags (existingTagSet tagsToMerge : List (String × String)) :
    List (String × String) :=
  tagsToMerge.foldl mergeOneTag existingTagSet

/-- Outcome of the `GetBucketTagging` call: a successful response whose
`TagSet` may be absent, or a thrown error identified by its `name`. -/
inductive GetTagsResult where
  | ok (tagSet : Option (List (String × String)))
  | err (name : String)
deriving DecidableEq, Repr

/-- `updateBucketTags`: fetch the existing tag set (a `NoSuchTagSet` error
reads as the empty set, any other error is re-raised), merge the configured
tags in, and emit one `PutBucketTagging` call.  The returned value is the tag
set written by that single put call, or the re-raised error name. -/
def updateBucketTags (getRes : GetTagsResult)
    (tagsToUpdate : List (String × String)) :
    Except String (List (String × String)) :=
  match getRes with
  | .ok ts => .ok (mergeTags (ts.getD []) tagsToUpdate)
  | .err name =>
    if name = "NoSuchTagSet" then .ok (mergeTags [] tagsToUpdate)
    else .error name

/-! ## Batch deleter (src/core/aws/s3/delete.ts, `deleteObjectsByKeys`)

The loop slices the key list into batches of at most 1000 keys and sends one
`DeleteObjectsCommand` (with `Quiet: true`) per batch, strictly sequentially.
The response object of a successful send is never inspected; only a rejected
send (a thrown error) stops the loop.  After each successful batch the
cumulative count is reported through `onBatch`.

The store client is the oracle `send`; a successful response carries the
per-object failures the store reported for that batch (which the source
ignores). -/

/-- Response of one `DeleteObjectsCommand`: the `Errors` entries (keys the
store failed to delete) of a successful reply. -/
structure DeleteResp where
  failedKeys : List String
deriving DecidableEq, Repr

/-- Slice a list into successive chunks of `S3_DELETE_BATCH_SIZE`, with fuel
bounding the iteration count (one batch consumes at least one key, so
`keys.length` iterations always suffice). -/
def toBatchesGo : Nat → List String → List (List String)
  | 0, _ => []
  | _, [] => []
  | n + 1, keys@(_ :: _) =>
    keys.take S3_DELETE_BATCH_SIZE ::
      toBatchesGo n (keys.drop S3_DELETE_BATCH_SIZE)

/-- The successive `keys.slice(i, i + S3_DELETE_BATCH_SIZE)` batches. -/
def toBatches (keys : List String) : List (List String) :=
  toBatchesGo keys.length keys

/-- Sequentially send the batches, threading the cumulative deleted count and
collecting the `(deletedSoFar, total)` progress reports; a rejected send stops
everything with that error. -/
def deleteBatchesGo (send : List String → Except String DeleteResp)
    (total : Nat) : List (List String) → Nat →
    Except String (List (Nat × Nat))
  | [], _ => .ok []
  | batch :: rest, deleted =>
    match send batch with
    | .error e => .error e
    | .ok _resp =>
      match deleteBatchesGo send total rest (deleted + batch.length) with
      | .error e => .error e
      | .ok reports => .ok ((deleted + batch.length, total) :: reports)

/-- `deleteObjectsByKeys(s3Client, bucket, keys, onBatch)`: the whole call
either resolves (returning the sequence of progress reports) or rejects with
the first thrown send error. -/
def deleteObjectsByKeys (send : List String → Except String DeleteResp)
    (keys : List String) : Except String (List (Nat × Nat)) :=
  deleteBatchesGo send keys.length (toBatches keys) 0

/-! ## Copy with metadata (copy module: `copyObjectWithMetadata`)

The function first issues a `HeadObjectCommand` and reads
`ContentLength ?? 0`.  Below `S3_MAX_SIMPLE_COPY_SIZE` it issues exactly one
`CopyObjectCommand` with the `REPLACE` metadata directive.  At or above the
threshold it creates a multipart upload and loops
`for (start = 0; start < objectSize; start += S3_MULTIPART_COPY_PART_SIZE)`,
sending one `UploadPartCopyCommand` per chunk with the inclusive byte range
`start .. min(start + partSize - 1, objectSize - 1)` and part numbers counted
up from 1, then completes with the collected `(ETag, PartNumber)` pairs in
order.  Any failure inside the `try` block sends an
`AbortMultipartUploadCommand` and re-throws.

Commands the function sends to the store client, in order: -/

inductive CopyCmd where
  | head
  | simpleCopy
  | createMultipart
  | uploadPartCopy (partNumber : Nat) (rangeStart rangeEnd : Nat)
  | completeMultipart (parts : List (Option String × Nat))
  | abortMultipart
deriving DecidableEq, Repr

/-- The `(start, end)` byte ranges of the part-copy loop.  The `for` loop
advances `start` by a fixed positive step, so it runs at most
`objectSize / step + 1` times; that count is used as structural fuel. -/
def copyPartsGo (objectSize : Nat) : Nat → Nat → List (Nat × Nat)
  | 0, _ => []
  | n + 1, start =>
    if start < objectSize then
      (start,
        min (start + S3_MULTIPART_COPY_PART_SIZE - 1) (objectSize - 1)) ::
        copyPartsGo objectSize n (start + S3_MULTIPART_COPY_PART_SIZE)
    else
      []

/-- All byte ranges copied for an object of the given size. -/
def copyParts (objectSize : Nat) : List (Nat × Nat) :=
  copyPartsGo objectSize (objectSize / S3_MULTIPART_COPY_PART_SIZE + 1) 0

/-- Run the part-copy loop: `partNumber` starts at 1 and is incremented per
iteration; each `UploadPartCopyCommand` is sent in order and a rejected send
stops the loop at once.  Returns the commands sent, the `parts` array
accumulated from the responses, and the thrown error, if any.  `partRes n`
is the store's answer to part number `n`: either a thrown error or
`CopyPartResult?.ETag`. -/
def multipartGo (partRes : Nat → Except String (Option String)) :
    Nat → List (Nat × Nat) →
    List CopyCmd × List (Option String × Nat) × Option String
  | _, [] => ([], [], none)
  | pn, r :: rest =>
    match partRes pn with
    | .error e => ([.uploadPartCopy pn r.1 r.2], [], some e)
    | .ok etag =>
      match multipartGo partRes (pn + 1) rest with
      | (cmds, parts, err) =>
        (.uploadPartCopy pn r.1 r.2 :: cmds, (etag, pn) :: parts, err)

/-- `copyObjectWithMetadata`, as the trace of commands sent to the store
client together with the overall outcome.  `objectSize` is the
`ContentLength ?? 0` of the head response; `partRes` and `completeRes` are
the store's answers to the part copies and the completion call (the head,
create and simple-copy calls are taken as succeeding, since the claims are
about failures after the multipart upload was initiated). -/
def copyObjectWithMetadataRun (objectSize : Nat)
    (partRes : Nat → Except String (Option String))
    (completeRes : Except String Unit) :
    List CopyCmd × Except String Unit :=
  if objectSize < S3_MAX_SIMPLE_COPY_SIZE then
    ([.head, .simpleCopy], .ok ())
  else
    match multipartGo partRes 1 (copyParts objectSize) with
    | (cmds, _, some e) =>
      (.head :: .createMultipart :: cmds ++ [.abortMultipart], .error e)
    | (cmds, parts, none) =>
      match completeRes with
      | .error e =>
        (.head :: .createMultipart :: cmds ++
          [.completeMultipart parts, .abortMultipart], .error e)
      | .ok _ =>
        (.head :: .createMultipart :: cmds ++ [.completeMultipart parts],
          .ok ())

/-! ## Local file enumerator (src/shared/utils/files.ts, `getLocalFiles`)

The generator recursively walks a readable directory tree, yields every
regular file in `readdir` order, skips symbolic links with a warning, and
recurses into sub-directories.  A directory tree is modelled explicitly and a
walked file is identified by its list of path segments relative to the walk
root (the source yields `path.join(dir, entry.name)` absolute paths; on files
below the root, `toS3Path(path.relative(localDir, file))` is exactly those
segments joined with a forward slash). -/

inductive FsEntry where
  | file (name : String)
  | dir (name : String) (entries : List FsEntry)
  | symlink (name : String)

mutual

/-- Files yielded for one directory entry, as root-relative segment lists. -/
def collectEntry : FsEntry → List (List String)
  | .file n => [[n]]
  | .symlink _ => []
  | .dir n es => (collectEntries es).map (fun p => n :: p)

/-- Files yielded for a directory's entry list, in `readdir` order. -/
def collectEntries : List FsEntry → List (List String)
  | [] => []
  | e :: es => collectEntry e ++ collectEntries es

end

/-- `getLocalFiles(localDir)` over the modelled tree of `localDir`. -/
def getLocalFiles (tree : List FsEntry) : List (List String) :=
  collectEntries tree

/-- `toS3Path(path.relative(localDir, file))`: the forward-slash-normalized
path of a walked file relative to the sync root. -/
def relString (p : List String) : String :=
  "/".intercalate p

/-! ## Directory upload engine (src/core/aws/s3/upload.ts) -/

/-- A remote object as yielded by `listAllObjects`: key plus optional
entity-tag. -/
structure S3Obj where
  key : String
  etag : Option String
deriving DecidableEq, Repr

/-- JS `Map.set`: replace the value of an existing key in place, otherwise
append. -/
def mapSet (m : List S3Obj) (o : S3Obj) : List S3Obj :=
  if m.any (fun x => x.key = o.key) then
    m.map (fun x => if x.key = o.key then o else x)
  else
    m ++ [o]

/-- `getRemoteObjectsMap`: fold the listed objects into a map keyed by
object key. -/
def buildRemoteMap (objs : List S3Obj) : List S3Obj :=
  objs.foldl mapSet []

/-- `remoteByKey.get(key)`. -/
def remoteFind (m : List S3Obj) (k : String) : Option S3Obj :=
  m.find? (fun x => x.key = k)

/-- JS `Set.add` (insertion order, duplicates ignored). -/
def setAdd (s : List String) (k : String) : List String :=
  if s.contains k then s else s ++ [k]

/-- `prefix.replace(/\/?$/, '/')`: the first match of the anchored pattern is
the final slash if present (replaced by itself), else the empty string at the
end (a slash is appended). -/
def ensureTrailingSlash (p : String) : String :=
  if p.data.getLast? = some '/' then p else p ++ "/"

/-- The computed S3 object key of a local file: a truthy (non-empty) key
processed through the trailing-slash normalization, or the bare normalized
relative path. -/
def s3KeyOf (pre : String) (relPath : String) : String :=
  if pre = "" then relPath else ensureTrailingSlash pre ++ relPath

/-- An entry of the `filesToProcess` array. -/
structure FileProcessEntry where
  localPath : List String
  s3Key : String
  s3Params : List (String × String)
deriving DecidableEq, Repr

/-- One iteration of the `for await (const localFile of getLocalFiles(...))`
loop in `getFilesToProcess`: the key is added to `localKeys` first, then the
parameter resolution may skip the file. -/
def fpStep (mm : String → String → Bool) (pre : String)
    (params : Option (List ParamMatcher)) (stage : Option String)
    (acc : List FileProcessEntry × List String) (p : List String) :
    List FileProcessEntry × List String :=
  let rel := relString p
  let key := s3KeyOf pre rel
  let keys := setAdd acc.2 key
  match resolveS3Params mm rel params stage false with
  | none => (acc.1, keys)
  | some ps => (acc.1 ++ [⟨p, key, ps⟩], keys)

/-- `getFilesToProcess`: the candidate files and the local-keys set. -/
def getFilesToProcess (mm : String → String → Bool) (tree : List FsEntry)
    (pre : String) (params : Option (List ParamMatcher))
    (stage : Option String) : List FileProcessEntry × List String :=
  (getLocalFiles tree).foldl (fpStep mm pre params stage) ([], [])

/-- `getKeysToDelete`: remote keys (map iteration order) absent from the
local-keys set, when `deleteRemoved` is set. -/
def getKeysToDelete (remoteKeys : List String) (localKeys : List String)
    (deleteRemoved : Bool) : List String :=
  if deleteRemoved then
    remoteKeys.filter (fun k => !(localKeys.contains k))
  else
    []

/-- `computeFileMD5` (hash module): the digest of the file's bytes wrapped in
double quotes to match the S3 entity-tag format.  The MD5 digest itself is
the external `crypto` stream, modelled by the oracle `md5hex`. -/
def computeFileMD5 (md5hex : List String → String) (p : List String) :
    String :=
  "\"" ++ md5hex p ++ "\""

/-- The per-file branch of the upload loop: an upload call is issued unless
the remote counterpart has a truthy entity-tag without a `-` (a simple,
non-multipart tag) equal to the file's computed MD5. -/
def shouldUpload (md5hex : List String → String) (rmap : List S3Obj)
    (e : FileProcessEntry) : Bool :=
  match remoteFind rmap e.s3Key with
  | some o =>
    match o.etag with
    | some t =>
      if t = "" then true
      else if t.data.contains '-' then true
      else if computeFileMD5 md5hex e.localPath = t then false
      else true
    | none => true
  | none => true

/-- A network write issued by `uploadDirectory`: one streaming upload per
changed or new file, and at most one batched delete covering the orphaned
remote keys. -/
inductive SyncAction where
  | upload (key : String)
  | deleteKeys (keys : List String)
deriving DecidableEq, Repr

/-- `uploadDirectory`, as the multiset of write calls it issues (upload
entries in `filesToProcess` order — the concurrency limiter only bounds how
many are in flight — followed by the optional batch delete). -/
def uploadDirectoryActions (mm : String → String → Bool)
    (md5hex : List String → String) (tree : List FsEntry) (pre : String)
    (params : Option (List ParamMatcher)) (stage : Option String)
    (deleteRemoved : Bool) (remote : List S3Obj) : List SyncAction :=
  let rmap := buildRemoteMap remote
  let fp := getFilesToProcess mm tree pre params stage
  let keysToDelete :=
    getKeysToDelete (rmap.map (fun o => o.key)) fp.2 deleteRemoved
  (fp.1.filter (shouldUpload md5hex rmap)).map
      (fun e => SyncAction.upload e.s3Key) ++
    (if keysToDelete.isEmpty then [] else [SyncAction.deleteKeys keysToDelete])

/-! ## Metadata sync file selection (src/core/aws/s3/metadata.ts,
`getFilesToSync`)

This is the component that consults the fixed ignore-set: a walked file whose
basename is `.DS_Store` is skipped before any rule matching.  Rules are the
`{ [glob]: params }` entries; a falsy glob (empty key) is skipped, a matching
rule with a truthy `OnlyForStage` that differs from the active stage removes
the file and stops its rule loop, and any other matching rule replaces the
file's entry with that rule's params (`extractMetaParams` copies them afresh,
so rules replace rather than accumulate). -/

structure FileToSync where
  name : List String
  params : List (String × String)
deriving DecidableEq, Repr

/-- JS `Map.set` on the `fileMap` (keyed by the walked file path). -/
def fileMapSet (m : List FileToSync) (f : FileToSync) : List FileToSync :=
  if m.any (fun x => x.name = f.name) then
    m.map (fun x => if x.name = f.name then f else x)
  else
    m ++ [f]

/-- The inner `for (const param of params)` loop with its `break`. -/
def syncRulesGo (mm : String → String → Bool) (stage : Option String)
    (p : List String) (rel : String) (fileMap : List FileToSync) :
    List (String × List (String × String)) → List FileToSync
  | [] => fileMap
  | (glob, prms) :: rest =>
    if glob = "" then
      syncRulesGo mm stage p rel fileMap rest
    else if mm rel glob then
      match truthyLookup prms ONLY_FOR_STAGE_KEY with
      | some v =>
        if stage = some v then
          syncRulesGo mm stage p rel
            (fileMapSet fileMap ⟨p, objDelete (objAssign [] prms)
              ONLY_FOR_STAGE_KEY⟩) rest
        else
          fileMap.filter (fun x => x.name ≠ p)
      | none =>
        syncRulesGo mm stage p rel
          (fileMapSet fileMap ⟨p, objDelete (objAssign [] prms)
            ONLY_FOR_STAGE_KEY⟩) rest
    else
      syncRulesGo mm stage p rel fileMap rest

/-- `path.basename` of a walked file, as its last segment. -/
def baseNameOf (p : List String) : Option String :=
  p.getLast?

/-- `getFilesToSync`: walk the tree, drop files whose basename is in the
ignore-set, and run the rule loop for the rest. -/
def getFilesToSync (mm : String → String → Bool) (tree : List FsEntry)
    (params : List (String × List (String × String)))
    (stage : Option String) : List FileToSync :=
  (getLocalFiles tree).foldl
    (fun fileMap p =>
      match baseNameOf p with
      | some b =>
        if IGNORED_FILE_NAMES.contains b then fileMap
        else syncRulesGo mm stage p (relString p) fileMap params
      | none => syncRulesGo mm stage p (relString p) fileMap params)
    []

/-! # Theorems -/

/-! ## C10: progress tracker invariants -/

/-- Every percentage forwarded from a starting remembered percent `p` is a
multiple of ten and strictly larger than `p`, and the forwarded sequence is
strictly increasing. -/
theorem trackerRunFrom_spec (calls : List (Nat × Nat)) : ∀ p : Nat,
    (trackerRunFrom p calls).Pairwise (· < ·) ∧
      ∀ c ∈ trackerRunFrom p calls, p < c ∧ c % 10 = 0 := by
  induction calls with
  | nil => intro p; simp [trackerRunFrom]
  | cons hd tl ih =>
    intro p
    obtain ⟨a, t⟩ := hd
    by_cases ht : t = 0
    · subst ht
      simpa [trackerRunFrom, trackerStep] using ih p
    · by_cases hlt : p < roundedTenth a t
      · have hrec := ih (roundedTenth a t)
        simp only [trackerRunFrom, trackerStep, if_neg ht, if_pos hlt]
        constructor
        · refine List.pairwise_cons.mpr ⟨?_, hrec.1⟩
          intro c hc
          exact (hrec.2 c hc).1
        · intro c hc
          simp only [List.mem_cons] at hc
          rcases hc with rfl | hc
          · exact ⟨hlt, by simp [roundedTenth, Nat.mul_mod_left]⟩
          · exact ⟨lt_trans hlt (hrec.2 c hc).1, (hrec.2 c hc).2⟩
      · simpa [trackerRunFrom, trackerStep, if_neg ht, if_neg hlt] using ih p


/-- C10: for every sequence of `update(amount, total)` calls on a tracker
created by `createProgressTracker`, the percentages forwarded to the progress
sink form a strictly increasing sequence of multiples of 10 (so no percentage
is ever re-reported), and a call with `total = 0` forwards nothing. -/
theorem claim_C10_progress_tracker (calls : List (Nat × Nat)) :
    (trackerRun calls).Pairwise (· < ·) ∧
      (∀ c ∈ trackerRun calls, c % 10 = 0) ∧
      ∀ (p a : Nat) (rest : List (Nat × Nat)),
        trackerStep p a 0 = (p, none) ∧
        trackerRunFrom p ((a, 0) :: rest) = trackerRunFrom p rest := by
  refine ⟨(trackerRunFrom_spec calls 0).1,
    fun c hc => ((trackerRunFrom_spec calls 0).2 c hc).2,
    fun p a rest => ⟨rfl, by simp [trackerRunFrom, trackerStep]⟩⟩

/-- Witness for C10 at a concrete call sequence. -/
theorem claim_C10_progress_tracker_witness :
    (trackerRun [(1, 10), (2, 10)]).Pairwise (· < ·) ∧
      (10 : Nat) % 10 = 0 ∧
      trackerStep 0 5 0 = (0, none) ∧
      trackerRunFrom 0 [(5, 0)] = trackerRunFrom 0 [] := by
  exact ⟨(claim_C10_progress_tracker [(1, 10), (2, 10)]).1,
    (claim_C10_progress_tracker [(1, 10), (2, 10)]).2.1 10 (by decide),
    ((claim_C10_progress_tracker [(1, 10), (2, 10)]).2.2 0 5 []).1,
    ((claim_C10_progress_tracker [(1, 10), (2, 10)]).2.2 0 5 []).2⟩

/-! ## C5: parameter resolver, last match wins -/

/-- The rules whose glob matches the relative path, in rule order. -/
def matchingRules (mm : String → String → Bool) (rel : String)
    (ps : List ParamMatcher) : List ParamMatcher :=
  ps.filter (fun q => mm rel q.glob)

/-- A left fold with a state-discarding step keeps the image of the last
element, or the initial state for an empty list. -/
theorem foldl_last (f : ParamMatcher → Option String) :
    ∀ (l : List ParamMatcher) (init : Option String),
      l.foldl (fun _ q => f q) init =
        match l.getLast? with
        | some q => f q
        | none => init := by
  intro l
  induction l with
  | nil => intro init; rfl
  | cons hd tl ih =>
    intro init
    cases tl with
    | nil => simp [List.foldl]
    | cons hd2 tl2 =>
      rw [List.foldl_cons, ih (f hd)]
      simp [List.getLast?]

/-- The rule-loop fold, characterised over the matching rules only. -/
theorem resolve_foldl_spec (mm : String → String → Bool) (rel : String)
    (ps : List ParamMatcher) : ∀ st : ResolveState,
    ps.foldl (resolveStep mm rel) st =
      ⟨(matchingRules mm rel ps).foldl (fun acc q => objAssign acc q.params)
          st.s3Params,
        (matchingRules mm rel ps).foldl
          (fun _ q => truthyLookup q.params ONLY_FOR_STAGE_KEY)
          st.onlyForStage,
        st.hasMatch || !(matchingRules mm rel ps).isEmpty⟩ := by
  induction ps with
  | nil => intro st; simp [matchingRules]
  | cons hd tl ih =>
    intro st
    by_cases h : mm rel hd.glob
    · rw [List.foldl_cons, ih]
      simp only [matchingRules, List.filter_cons, if_pos h, h,
        List.foldl_cons, resolveStep, if_pos h]
      cases htr : truthyLookup hd.params ONLY_FOR_STAGE_KEY <;>
        simp [List.isEmpty, htr]
    · rw [List.foldl_cons, ih]
      simp only [matchingRules, List.filter_cons, h, resolveStep]
      simp [h]

/-- C5: `resolveS3Params` returns the union of all matching rules' metadata
with later matching rules overwriting identically-named keys; the effective
`OnlyForStage` restriction is the one contributed by the last matching rule
(a later matching rule without a truthy restriction value clears it); the
restriction key is stripped from the returned map; and a recorded
restriction differing from the active stage yields no result. -/
theorem claim_C5_resolver_last_match_wins (mm : String → String → Bool)
    (rel : String) (ps : List ParamMatcher) (stage : Option String) :
    resolveS3Params mm rel (some ps) stage false =
      (let mrs := matchingRules mm rel ps
       let merged := objDelete
         (mrs.foldl (fun acc q => objAssign acc q.params) [])
         ONLY_FOR_STAGE_KEY
       match mrs.getLast?.bind
           (fun q => truthyLookup q.params ONLY_FOR_STAGE_KEY) with
       | some v => if stage = some v then some merged else none
       | none => some merged) := by
  by_cases hps : ps.isEmpty
  · have : ps = [] := List.isEmpty_iff.mp hps
    subst this
    simp [resolveS3Params, matchingRules, objDelete]
  · simp only [resolveS3Params, if_neg hps,
      resolve_foldl_spec mm rel ps ⟨[], none, false⟩,
      foldl_last (fun q => truthyLookup q.params ONLY_FOR_STAGE_KEY)]
    cases hl : (matchingRules mm rel ps).getLast? with
    | none => simp
    | some q => cases truthyLookup q.params ONLY_FOR_STAGE_KEY <;> simp

/-! ## C8: bucket tag merger -/

/-- Observer: the value of the first tag with the given key. -/
def tagValue (k : String) : List (String × String) → Option String
  | [] => none
  | e :: rest => if e.1 = k then some e.2 else tagValue k rest

/-- The keys of a tag set, in order. -/
def tagKeys (l : List (String × String)) : List String :=
  l.map Prod.fst

theorem updFirst_keys (t : String × String) :
    ∀ l : List (String × String), tagKeys (updFirst l t) = tagKeys l := by
  intro l
  induction l with
  | nil => rfl
  | cons e rest ih =>
    by_cases h : e.1 = t.1
    · simp [updFirst, h, tagKeys]
    · simp only [updFirst, if_neg h, tagKeys, List.map_cons]
      simpa [tagKeys] using ih

theorem updFirst_tagValue_self (t : String × String) :
    ∀ l : List (String × String), t.1 ∈ tagKeys l →
      tagValue t.1 (updFirst l t) = some t.2 := by
  intro l
  induction l with
  | nil => simp [tagKeys]
  | cons e rest ih =>
    intro hmem
    by_cases h : e.1 = t.1
    · simp [updFirst, h, tagValue]
    · have : t.1 ∈ tagKeys rest := by
        simpa [tagKeys, Ne.symm h] using hmem
      simp [updFirst, h, tagValue, Ne.symm h, ih this]

theorem updFirst_tagValue_other (t : String × String) (k : String)
    (hk : k ≠ t.1) : ∀ l : List (String × String),
      tagValue k (updFirst l t) = tagValue k l := by
  intro l
  induction l with
  | nil => rfl
  | cons e rest ih =>
    by_cases h : e.1 = t.1
    · have ht : t.1 ≠ k := fun hh => hk hh.symm
      simp [updFirst, h, tagValue, ht]
    · by_cases h2 : e.1 = k
      · simp [updFirst, h, tagValue, h2, hk]
      · simp [updFirst, h, tagValue, h2, ih, hk]

theorem tagValue_append (k : String) :
    ∀ l1 l2 : List (String × String),
      tagValue k (l1 ++ l2) =
        match tagValue k l1 with
        | some v => some v
        | none => tagValue k l2 := by
  intro l1 l2
  induction l1 with
  | nil => rfl
  | cons e rest ih =>
    by_cases h : e.1 = k <;> simp [tagValue, h, ih]

theorem tagValue_eq_none (k : String) :
    ∀ l : List (String × String), k ∉ tagKeys l → tagValue k l = none := by
  intro l
  induction l with
  | nil => intro; rfl
  | cons e rest ih =>
    intro hk
    have h1 : e.1 ≠ k := fun h => hk (by simp [tagKeys, h])
    have h2 : k ∉ tagKeys rest := fun h => hk (by simp [tagKeys] at h ⊢; tauto)
    simp [tagValue, h1, ih h2]

theorem mergeOneTag_mem_iff (acc : List (String × String))
    (t : String × String) :
    (acc.any (fun et => et.1 = t.1) = true) ↔ t.1 ∈ tagKeys acc := by
  simp [List.any_eq_true, tagKeys]

theorem mergeOneTag_keys (acc : List (String × String))
    (t : String × String) :
    tagKeys (mergeOneTag acc t) =
      if t.1 ∈ tagKeys acc then tagKeys acc else tagKeys acc ++ [t.1] := by
  by_cases h : t.1 ∈ tagKeys acc
  · rw [if_pos h]
    have := (mergeOneTag_mem_iff acc t).mpr h
    simp [mergeOneTag, this, updFirst_keys]
  · rw [if_neg h]
    have hb : acc.any (fun et => et.1 = t.1) = false := by
      cases hany : acc.any (fun et => et.1 = t.1)
      · rfl
      · exact absurd ((mergeOneTag_mem_iff acc t).mp hany) h
    simp [mergeOneTag, hb, tagKeys]

theorem mergeOneTag_tagValue_self (acc : List (String × String))
    (t : String × String) :
    tagValue t.1 (mergeOneTag acc t) = some t.2 := by
  by_cases h : t.1 ∈ tagKeys acc
  · have := (mergeOneTag_mem_iff acc t).mpr h
    simp [mergeOneTag, this, updFirst_tagValue_self t acc h]
  · have hb : acc.any (fun et => et.1 = t.1) = false := by
      cases hany : acc.any (fun et => et.1 = t.1)
      · rfl
      · exact absurd ((mergeOneTag_mem_iff acc t).mp hany) h
    rw [mergeOneTag, hb]
    simp only [Bool.false_eq_true, if_false]
    rw [tagValue_append, tagValue_eq_none t.1 acc h]
    simp [tagValue]

theorem mergeOneTag_tagValue_other (acc : List (String × String))
    (t : String × String) (k : String) (hk : k ≠ t.1) :
    tagValue k (mergeOneTag acc t) = tagValue k acc := by
  rw [mergeOneTag]
  by_cases hb : acc.any (fun et => et.1 = t.1)
  · rw [if_pos hb]
    exact updFirst_tagValue_other t k hk acc
  · rw [if_neg hb, tagValue_append]
    cases hv : tagValue k acc with
    | some v => rfl
    | none => simp [tagValue, Ne.symm hk]

theorem mergeTags_tagValue (cfg : List (String × String)) :
    ∀ ex : List (String × String), (tagKeys cfg).Nodup → ∀ k,
      tagValue k (mergeTags ex cfg) =
        match tagValue k cfg with
        | some v => some v
        | none => tagValue k ex := by
  induction cfg with
  | nil => intro ex _ k; simp [mergeTags, tagValue]
  | cons t cfg ih =>
    intro ex hnd k
    have hkeys : tagKeys (t :: cfg) = t.1 :: tagKeys cfg := rfl
    rw [hkeys] at hnd
    have hhd : t.1 ∉ tagKeys cfg := (List.nodup_cons.mp hnd).1
    have hnd' : (tagKeys cfg).Nodup := (List.nodup_cons.mp hnd).2
    have hstep : mergeTags ex (t :: cfg) = mergeTags (mergeOneTag ex t) cfg :=
      rfl
    rw [hstep, ih (mergeOneTag ex t) hnd' k]
    by_cases hk : k = t.1
    · subst hk
      rw [tagValue_eq_none t.1 cfg hhd, mergeOneTag_tagValue_self]
      simp [tagValue]
    · rw [mergeOneTag_tagValue_other ex t k hk]
      have hne : ¬ t.1 = k := fun h => hk h.symm
      have : tagValue k (t :: cfg) = tagValue k cfg := by
        simp [tagValue, hne]
      rw [this]

theorem mergeTags_keys (cfg : List (String × String)) :
    ∀ ex : List (String × String), (tagKeys cfg).Nodup →
      tagKeys (mergeTags ex cfg) =
        tagKeys ex ++ (tagKeys cfg).filter (fun k => k ∉ tagKeys ex) := by
  induction cfg with
  | nil => intro ex _; simp [mergeTags, tagKeys]
  | cons t cfg ih =>
    intro ex hnd
    have hkeys : tagKeys (t :: cfg) = t.1 :: tagKeys cfg := rfl
    rw [hkeys] at hnd
    have hhd : t.1 ∉ tagKeys cfg := (List.nodup_cons.mp hnd).1
    have hnd' : (tagKeys cfg).Nodup := (List.nodup_cons.mp hnd).2
    have hstep : mergeTags ex (t :: cfg) = mergeTags (mergeOneTag ex t) cfg :=
      rfl
    rw [hstep, ih (mergeOneTag ex t) hnd', mergeOneTag_keys]
    by_cases h : t.1 ∈ tagKeys ex
    · rw [if_pos h]
      have : (tagKeys (t :: cfg)).filter (fun k => k ∉ tagKeys ex) =
          (tagKeys cfg).filter (fun k => k ∉ tagKeys ex) := by
        rw [hkeys, List.filter_cons]
        simp [h]
      rw [this]
    · rw [if_neg h]
      have hcong : (tagKeys cfg).filter
            (fun k => k ∉ tagKeys ex ++ [t.1]) =
          (tagKeys cfg).filter (fun k => k ∉ tagKeys ex) := by
        refine List.filter_congr ?_
        intro k hkmem
        have hne : k ≠ t.1 := fun he => hhd (he ▸ hkmem)
        simp [List.mem_append, hne]
      have hhead : (tagKeys (t :: cfg)).filter (fun k => k ∉ tagKeys ex) =
          t.1 :: (tagKeys cfg).filter (fun k => k ∉ tagKeys ex) := by
        rw [hkeys, List.filter_cons]
        simp [h]
      rw [hcong, hhead]
      simp

/-- C8: `updateBucketTags` treats the store's "no tags exist" error as an
empty existing set, re-raises any other error unchanged, and writes back in
one call the merged set in which each configured tag overwrites the value of
an existing same-key tag in place (pre-existing key order preserved, new
keys appended in configured order); in particular existing `[{a:1}]` merged
with `{a:2, b:3}` yields `[{a:2}, {b:3}]`. -/
theorem claim_C8_update_bucket_tags :
    (∀ cfg, updateBucketTags (.err "NoSuchTagSet") cfg =
      .ok (mergeTags [] cfg)) ∧
    (∀ name cfg, name ≠ "NoSuchTagSet" →
      updateBucketTags (.err name) cfg = .error name) ∧
    (∀ ts cfg, updateBucketTags (.ok ts) cfg =
      .ok (mergeTags (ts.getD []) cfg)) ∧
    (∀ ex cfg, (tagKeys cfg).Nodup →
      tagKeys (mergeTags ex cfg) =
          tagKeys ex ++ (tagKeys cfg).filter (fun k => k ∉ tagKeys ex) ∧
        ∀ k, tagValue k (mergeTags ex cfg) =
          match tagValue k cfg with
          | some v => some v
          | none => tagValue k ex) ∧
    updateBucketTags (.ok (some [("a", "1")])) [("a", "2"), ("b", "3")] =
      .ok [("a", "2"), ("b", "3")] := by
  refine ⟨fun cfg => by simp [updateBucketTags],
    fun name cfg h => by simp [updateBucketTags, h],
    fun ts cfg => rfl,
    fun ex cfg hnd => ⟨mergeTags_keys cfg ex hnd, mergeTags_tagValue cfg ex hnd⟩,
    rfl⟩

/-- Witness for C8 at concrete inputs. -/
theorem claim_C8_update_bucket_tags_witness :
    updateBucketTags (.err "AccessDenied") [("a", "2")] =
        .error "AccessDenied" ∧
      tagKeys (mergeTags [("a", "1"), ("x", "9")] [("a", "2"), ("b", "3")]) =
        ["a", "x", "b"] ∧
      tagValue "a"
          (mergeTags [("a", "1"), ("x", "9")] [("a", "2"), ("b", "3")]) =
        some "2" := by
  refine ⟨claim_C8_update_bucket_tags.2.1 "AccessDenied" [("a", "2")]
    (by decide), ?_, ?_⟩
  · rw [(claim_C8_update_bucket_tags.2.2.2.1 [("a", "1"), ("x", "9")]
      [("a", "2"), ("b", "3")] (by decide)).1]
    decide
  · rw [(claim_C8_update_bucket_tags.2.2.2.1 [("a", "1"), ("x", "9")]
      [("a", "2"), ("b", "3")] (by decide)).2 "a"]
    decide

/-! ## C3: batch deleter and per-object failures

The source sends each batch with `Quiet: true` and never reads the response,
so per-object failures the store reports inside a successful reply do not
fail the call. -/

/-- A store client whose delete reply succeeds but reports that key `k1`
could not be deleted. -/
def sendReportingFailure : List String → Except String DeleteResp :=
  fun _ => .ok ⟨["k1"]⟩

/-- Counterexample to C3: a batch whose successful response reports a
per-object failure for every key still resolves the whole call (with the
full batch counted as deleted); the per-object failure is swallowed, no
aggregate error is raised. -/
theorem claim_C3_counterexample :
    sendReportingFailure ["k1"] = .ok ⟨["k1"]⟩ ∧
      deleteObjectsByKeys sendReportingFailure ["k1"] = .ok [(1, 1)] := by
  exact ⟨rfl, rfl⟩

/-- C3 (amended): the whole `deleteObjectsByKeys` call fails only when the
store rejects a batch request outright; if every batch request resolves, the
call resolves, regardless of any per-object failures carried inside the
responses (they are never inspected). -/
theorem claim_C3_delete_error_only_from_rejected_batch
    (send : List String → Except String DeleteResp) (keys : List String) :
    (∀ e, deleteObjectsByKeys send keys = .error e →
      ∃ b ∈ toBatches keys, send b = .error e) ∧
    ((∀ b ∈ toBatches keys, ∃ r, send b = .ok r) →
      ∃ reports, deleteObjectsByKeys send keys = .ok reports) := by
  have main : ∀ (bs : List (List String)) (total deleted : Nat),
      (∀ e, deleteBatchesGo send total bs deleted = .error e →
        ∃ b ∈ bs, send b = .error e) ∧
      ((∀ b ∈ bs, ∃ r, send b = .ok r) →
        ∃ reports, deleteBatchesGo send total bs deleted = .ok reports) := by
    intro bs
    induction bs with
    | nil =>
      intro total deleted
      exact ⟨fun e he => by simp [deleteBatchesGo] at he, fun _ => ⟨[], rfl⟩⟩
    | cons b rest ih =>
      intro total deleted
      constructor
      · intro e he
        rw [deleteBatchesGo] at he
        cases hs : send b with
        | error e2 =>
          rw [hs] at he
          exact ⟨b, List.mem_cons_self b rest, by
            cases he; exact hs⟩
        | ok r =>
          rw [hs] at he
          cases hr : deleteBatchesGo send total rest (deleted + b.length) with
          | error e2 =>
            rw [hr] at he
            cases he
            obtain ⟨b2, hb2, hsb2⟩ := (ih total (deleted + b.length)).1 e hr
            exact ⟨b2, List.mem_cons_of_mem b hb2, hsb2⟩
          | ok reports => rw [hr] at he; cases he
      · intro hok
        obtain ⟨r, hr⟩ := hok b (List.mem_cons_self b rest)
        obtain ⟨reports, hreports⟩ := (ih total (deleted + b.length)).2
          (fun b2 hb2 => hok b2 (List.mem_cons_of_mem b hb2))
        refine ⟨(deleted + b.length, total) :: reports, ?_⟩
        rw [deleteBatchesGo, hr, hreports]
  exact ⟨fun e he => (main (toBatches keys) keys.length 0).1 e he,
    fun h => (main (toBatches keys) keys.length 0).2 h⟩

/-- Witness for C3's amended theorem at concrete inputs: a batch rejection
surfaces, and per-object failures inside successful responses never fail the
call. -/
theorem claim_C3_delete_error_witness :
    (∃ b ∈ toBatches ["k0"], (fun (_ : List String) =>
        (.error "boom" : Except String DeleteResp)) b = .error "boom") ∧
      ∃ reports, deleteObjectsByKeys sendReportingFailure ["k1"] =
        .ok reports := by
  constructor
  · exact (claim_C3_delete_error_only_from_rejected_batch
      (fun _ => .error "boom") ["k0"]).1 "boom" rfl
  · exact (claim_C3_delete_error_only_from_rejected_batch
      sendReportingFailure ["k1"]).2 (fun b _ => ⟨⟨["k1"]⟩, rfl⟩)

/-! ## C6 and C7: copy-with-metadata size branch and abort discipline -/

/-- Number of loop iterations of the multipart copy for a given size:
`⌈size / partSize⌉`. -/
def numParts (objectSize : Nat) : Nat :=
  (objectSize + S3_MULTIPART_COPY_PART_SIZE - 1) / S3_MULTIPART_COPY_PART_SIZE

theorem copyPartsGo_closed (objectSize : Nat) : ∀ n k : Nat,
    objectSize ≤ (k + n) * S3_MULTIPART_COPY_PART_SIZE →
    copyPartsGo objectSize n (k * S3_MULTIPART_COPY_PART_SIZE) =
      (List.range (numParts objectSize - k)).map
        (fun i => ((k + i) * S3_MULTIPART_COPY_PART_SIZE,
          min ((k + i) * S3_MULTIPART_COPY_PART_SIZE +
            S3_MULTIPART_COPY_PART_SIZE - 1) (objectSize - 1))) := by
  intro n
  induction n with
  | zero =>
    intro k hk
    have h0 : numParts objectSize - k = 0 := by
      simp only [numParts, S3_MULTIPART_COPY_PART_SIZE] at *
      omega
    simp [copyPartsGo, h0]
  | succ n ih =>
    intro k hk
    by_cases hlt : k * S3_MULTIPART_COPY_PART_SIZE < objectSize
    · have hk1 :
          objectSize ≤ ((k + 1) + n) * S3_MULTIPART_COPY_PART_SIZE := by
        simp only [S3_MULTIPART_COPY_PART_SIZE] at *
        omega
      have hstep : k * S3_MULTIPART_COPY_PART_SIZE +
          S3_MULTIPART_COPY_PART_SIZE =
          (k + 1) * S3_MULTIPART_COPY_PART_SIZE := by ring
      have hcount : numParts objectSize - k =
          (numParts objectSize - (k + 1)) + 1 := by
        have : k < numParts objectSize := by
          simp only [numParts, S3_MULTIPART_COPY_PART_SIZE] at *
          omega
        omega
      rw [copyPartsGo]
      rw [if_pos hlt]
      nth_rewrite 2 [hstep]
      rw [ih (k + 1) hk1]
      rw [hcount]
      rw [List.range_succ_eq_map]
      rw [List.map_cons]
      rw [List.map_map]
      simp only [Nat.add_zero]
      refine congrArg₂ List.cons rfl ?_
      refine List.map_congr_left ?_
      intro i _
      have h1 : k + Nat.succ i = k + 1 + i := by omega
      simp only [Function.comp_apply, h1]
    · have h0 : numParts objectSize - k = 0 := by
        simp only [numParts, S3_MULTIPART_COPY_PART_SIZE] at *
        omega
      rw [copyPartsGo, if_neg hlt, h0]
      simp

theorem copyParts_closed (objectSize : Nat) :
    copyParts objectSize = (List.range (numParts objectSize)).map
      (fun i => (i * S3_MULTIPART_COPY_PART_SIZE,
        min (i * S3_MULTIPART_COPY_PART_SIZE +
          S3_MULTIPART_COPY_PART_SIZE - 1) (objectSize - 1))) := by
  have hfuel : objectSize ≤
      (0 + (objectSize / S3_MULTIPART_COPY_PART_SIZE + 1)) *
        S3_MULTIPART_COPY_PART_SIZE := by
    simp only [S3_MULTIPART_COPY_PART_SIZE]
    omega
  have h := copyPartsGo_closed objectSize
    (objectSize / S3_MULTIPART_COPY_PART_SIZE + 1) 0 hfuel
  simpa [copyParts] using h

theorem multipartGo_ok_range (et : Nat → Option String) :
    ∀ (n : Nat) (g : Nat → Nat × Nat) (pn : Nat),
      multipartGo (fun m => .ok (et m)) pn ((List.range n).map g) =
        ((List.range n).map (fun i =>
            CopyCmd.uploadPartCopy (pn + i) (g i).1 (g i).2),
          (List.range n).map (fun i => (et (pn + i), pn + i)),
          none) := by
  intro n
  induction n with
  | zero => intro g pn; rfl
  | succ n ih =>
    intro g pn
    rw [List.range_succ_eq_map, List.map_cons, List.map_map, List.map_cons,
      List.map_map, List.map_cons, List.map_map]
    simp only [multipartGo]
    rw [ih (g ∘ Nat.succ) (pn + 1)]
    simp only [Nat.add_zero, Prod.mk.injEq]
    refine ⟨?_, ?_, trivial⟩
    · refine congrArg₂ List.cons rfl ?_
      refine List.map_congr_left ?_
      intro i _
      have h1 : pn + Nat.succ i = pn + 1 + i := by omega
      simp only [Function.comp_apply, h1]
    · refine congrArg₂ List.cons rfl ?_
      refine List.map_congr_left ?_
      intro i _
      have h1 : pn + Nat.succ i = pn + 1 + i := by omega
      simp only [Function.comp_apply, h1]

/-- C6: `copyObjectWithMetadata` branches on the reported size: strictly
below the 5 GiB threshold (including threshold minus one) it issues exactly
one single-call copy-with-replace; at or above the threshold it performs a
multipart copy whose byte ranges partition the object into fixed 500 MiB
chunks (each full chunk ends at `start + partSize - 1`, the last chunk is
truncated to end at `objectSize - 1`), with part numbers strictly increasing
from 1, completed with the collected part entity-tags in order. -/
theorem claim_C6_copy_size_branches (objectSize : Nat)
    (et : Nat → Option String) :
    (objectSize < S3_MAX_SIMPLE_COPY_SIZE →
      copyObjectWithMetadataRun objectSize (fun n => .ok (et n)) (.ok ()) =
        ([.head, .simpleCopy], .ok ())) ∧
    (S3_MAX_SIMPLE_COPY_SIZE ≤ objectSize →
      copyObjectWithMetadataRun objectSize (fun n => .ok (et n)) (.ok ()) =
        (CopyCmd.head :: CopyCmd.createMultipart ::
          ((List.range (numParts objectSize)).map (fun i =>
            CopyCmd.uploadPartCopy (i + 1)
              (i * S3_MULTIPART_COPY_PART_SIZE)
              (min (i * S3_MULTIPART_COPY_PART_SIZE +
                S3_MULTIPART_COPY_PART_SIZE - 1) (objectSize - 1)))) ++
          [CopyCmd.completeMultipart ((List.range (numParts objectSize)).map
            (fun i => (et (i + 1), i + 1)))],
          .ok ()) ∧
      0 < numParts objectSize ∧
      (∀ i, i + 1 < numParts objectSize →
        min (i * S3_MULTIPART_COPY_PART_SIZE +
            S3_MULTIPART_COPY_PART_SIZE - 1) (objectSize - 1) =
          i * S3_MULTIPART_COPY_PART_SIZE +
            S3_MULTIPART_COPY_PART_SIZE - 1) ∧
      min ((numParts objectSize - 1) * S3_MULTIPART_COPY_PART_SIZE +
          S3_MULTIPART_COPY_PART_SIZE - 1) (objectSize - 1) =
        objectSize - 1) := by
  constructor
  · intro h
    simp [copyObjectWithMetadataRun, h]
  · intro h
    have hns : ¬ objectSize < S3_MAX_SIMPLE_COPY_SIZE := not_lt.mpr h
    refine ⟨?_, ?_, ?_, ?_⟩
    · have hmg := multipartGo_ok_range et (numParts objectSize)
        (fun i => (i * S3_MULTIPART_COPY_PART_SIZE,
          min (i * S3_MULTIPART_COPY_PART_SIZE +
            S3_MULTIPART_COPY_PART_SIZE - 1) (objectSize - 1))) 1
      rw [← copyParts_closed] at hmg
      have h1i : ∀ i : Nat, 1 + i = i + 1 := fun i => by omega
      simp only [copyObjectWithMetadataRun, if_neg hns, hmg, h1i]
    · simp only [numParts, S3_MAX_SIMPLE_COPY_SIZE,
        S3_MULTIPART_COPY_PART_SIZE] at h ⊢
      omega
    · intro i hi
      simp only [numParts, S3_MAX_SIMPLE_COPY_SIZE,
        S3_MULTIPART_COPY_PART_SIZE] at h hi ⊢
      omega
    · simp only [numParts, S3_MAX_SIMPLE_COPY_SIZE,
        S3_MULTIPART_COPY_PART_SIZE] at h ⊢
      omega

/-- Witness for C6 at the threshold boundary: threshold minus one byte takes
the single-call path, the threshold itself takes the multipart path with ten
full 500 MiB chunks and one truncated final chunk. -/
theorem claim_C6_copy_size_branches_witness :
    copyObjectWithMetadataRun (S3_MAX_SIMPLE_COPY_SIZE - 1)
        (fun _ => .ok (some "e")) (.ok ()) = ([.head, .simpleCopy], .ok ()) ∧
      copyObjectWithMetadataRun S3_MAX_SIMPLE_COPY_SIZE
          (fun _ => .ok (some "e")) (.ok ()) =
        (CopyCmd.head :: CopyCmd.createMultipart ::
          ((List.range 11).map (fun i =>
            CopyCmd.uploadPartCopy (i + 1) (i * 524288000)
              (min (i * 524288000 + 524287999) 5368709119))) ++
          [CopyCmd.completeMultipart ((List.range 11).map
            (fun i => (some "e", i + 1)))],
          .ok ()) := by
  constructor
  · exact (claim_C6_copy_size_branches (S3_MAX_SIMPLE_COPY_SIZE - 1)
      (fun _ => some "e")).1 (by decide)
  · have h := ((claim_C6_copy_size_branches S3_MAX_SIMPLE_COPY_SIZE
      (fun _ => some "e")).2 (le_refl _)).1
    rw [h]
    rfl

/-- C7: during a multipart copy, if any part-copy or completion step fails
after the multipart upload was initiated, the very last command sent to the
store before the error propagates is an explicit abort of that multipart
upload. -/
theorem claim_C7_multipart_abort_on_failure (objectSize : Nat)
    (partRes : Nat → Except String (Option String))
    (completeRes : Except String Unit)
    (hsize : S3_MAX_SIMPLE_COPY_SIZE ≤ objectSize) (e : String)
    (herr : (copyObjectWithMetadataRun objectSize partRes completeRes).2 =
      .error e) :
    (copyObjectWithMetadataRun objectSize partRes completeRes).1.getLast? =
      some CopyCmd.abortMultipart := by
  have hns : ¬ objectSize < S3_MAX_SIMPLE_COPY_SIZE := not_lt.mpr hsize
  rcases hmg : multipartGo partRes 1 (copyParts objectSize) with
    ⟨cmds, parts, err⟩
  cases err with
  | some e2 =>
    simp only [copyObjectWithMetadataRun, if_neg hns, hmg]
    exact List.getLast?_concat _
  | none =>
    cases completeRes with
    | error e2 =>
      simp only [copyObjectWithMetadataRun, if_neg hns, hmg]
      rw [List.getLast?_append]
      simp [List.getLast?]
    | ok u =>
      simp only [copyObjectWithMetadataRun, if_neg hns, hmg] at herr
      cases herr

/-- Witness for C7: at the threshold size with the second part copy failing,
the issued command trace ends with the abort request. -/
theorem claim_C7_multipart_abort_on_failure_witness :
    (copyObjectWithMetadataRun S3_MAX_SIMPLE_COPY_SIZE
        (fun n => if n = 2 then .error "part2" else .ok (some "e"))
        (.ok ())).1.getLast? = some CopyCmd.abortMultipart := by
  exact claim_C7_multipart_abort_on_failure S3_MAX_SIMPLE_COPY_SIZE
    (fun n => if n = 2 then .error "part2" else .ok (some "e")) (.ok ())
    (le_refl _) "part2" rfl

/-! ## C1, C2, C4: directory upload engine -/

/-- The entry `getFilesToProcess` builds for a walked file, if its parameter
resolution does not skip it. -/
def mkEntry (mm : String → String → Bool) (pre : String)
    (params : Option (List ParamMatcher)) (stage : Option String)
    (p : List String) : Option FileProcessEntry :=
  match resolveS3Params mm (relString p) params stage false with
  | none => none
  | some ps => some ⟨p, s3KeyOf pre (relString p), ps⟩

theorem fp_foldl_files (mm : String → String → Bool) (pre : String)
    (params : Option (List ParamMatcher)) (stage : Option String) :
    ∀ (files : List (List String))
      (acc : List FileProcessEntry × List String),
      (files.foldl (fpStep mm pre params stage) acc).1 =
        acc.1 ++ files.filterMap (mkEntry mm pre params stage) := by
  intro files
  induction files with
  | nil => intro acc; simp
  | cons p rest ih =>
    intro acc
    rw [List.foldl_cons, ih, List.filterMap_cons]
    cases hres : resolveS3Params mm (relString p) params stage false with
    | none => simp [fpStep, hres, mkEntry]
    | some ps => simp [fpStep, hres, mkEntry]

theorem mem_setAdd (s : List String) (k a : String) :
    a ∈ setAdd s k ↔ a ∈ s ∨ a = k := by
  by_cases h : s.contains k
  · have hk : k ∈ s := by simpa using h
    simp only [setAdd, if_pos h]
    constructor
    · exact fun ha => Or.inl ha
    · rintro (ha | rfl)
      · exact ha
      · exact hk
  · have hk : k ∉ s := by simpa using h
    simp [setAdd, hk]

theorem fp_foldl_keys (mm : String → String → Bool) (pre : String)
    (params : Option (List ParamMatcher)) (stage : Option String) :
    ∀ (files : List (List String))
      (acc : List FileProcessEntry × List String) (k : String),
      k ∈ (files.foldl (fpStep mm pre params stage) acc).2 ↔
        k ∈ acc.2 ∨ ∃ p ∈ files, k = s3KeyOf pre (relString p) := by
  intro files
  induction files with
  | nil => intro acc k; simp
  | cons p rest ih =>
    intro acc k
    have hsnd : (fpStep mm pre params stage acc p).2 =
        setAdd acc.2 (s3KeyOf pre (relString p)) := by
      rw [fpStep]
      cases resolveS3Params mm (relString p) params stage false <;> rfl
    rw [List.foldl_cons, ih, hsnd, mem_setAdd]
    constructor
    · rintro ((ha | rfl) | ⟨q, hq, rfl⟩)
      · exact Or.inl ha
      · exact Or.inr ⟨p, List.mem_cons_self p rest, rfl⟩
      · exact Or.inr ⟨q, List.mem_cons_of_mem p hq, rfl⟩
    · rintro (ha | ⟨q, hq, rfl⟩)
      · exact Or.inl (Or.inl ha)
      · rcases List.mem_cons.mp hq with rfl | hq2
        · exact Or.inl (Or.inr rfl)
        · exact Or.inr ⟨q, hq2, rfl⟩

theorem getFilesToProcess_files (mm : String → String → Bool)
    (tree : List FsEntry) (pre : String)
    (params : Option (List ParamMatcher)) (stage : Option String) :
    (getFilesToProcess mm tree pre params stage).1 =
      (getLocalFiles tree).filterMap (mkEntry mm pre params stage) := by
  rw [getFilesToProcess, fp_foldl_files]
  rfl

theorem getFilesToProcess_keys (mm : String → String → Bool)
    (tree : List FsEntry) (pre : String)
    (params : Option (List ParamMatcher)) (stage : Option String)
    (k : String) :
    k ∈ (getFilesToProcess mm tree pre params stage).2 ↔
      ∃ p ∈ getLocalFiles tree, k = s3KeyOf pre (relString p) := by
  rw [getFilesToProcess, fp_foldl_keys]
  simp

/-- Counterexample to C1 at a concrete input: a single local file
`index.html` whose only rule carries `OnlyForStage: prod` while the active
stage is `dev` is excluded from the upload candidates, yet its computed key
IS in the local-keys set, and with `deleteRemoved` set a remote object at
that key is NOT selected for deletion — contradicting the claim that the key
is absent from the set and the remote object becomes eligible. -/
theorem claim_C1_counterexample :
    (getFilesToProcess (fun _ _ => true) [.file "index.html"] ""
        (some [⟨"*.html", [("OnlyForStage", "prod")]⟩]) (some "dev")).1 =
      [] ∧
    "index.html" ∈
      (getFilesToProcess (fun _ _ => true) [.file "index.html"] ""
        (some [⟨"*.html", [("OnlyForStage", "prod")]⟩]) (some "dev")).2 ∧
    getKeysToDelete ["index.html"]
        (getFilesToProcess (fun _ _ => true) [.file "index.html"] ""
          (some [⟨"*.html", [("OnlyForStage", "prod")]⟩]) (some "dev")).2
        true = [] := by
  refine ⟨by decide, by decide, by decide⟩

/-- C1 (amended): for every local file whose parameter resolution yields "no
result" because of a stage mismatch, the file is excluded from the upload
candidates, but its computed S3 key IS added to the local-keys set (the add
precedes the resolution check), so when `deleteRemoved` is set a remote
object at that key is NOT included in the keys selected for deletion. -/
theorem claim_C1_stage_excluded_key_still_protected
    (mm : String → String → Bool) (tree : List FsEntry) (pre : String)
    (params : Option (List ParamMatcher)) (stage : Option String)
    (p : List String) (hp : p ∈ getLocalFiles tree)
    (hres : resolveS3Params mm (relString p) params stage false = none) :
    s3KeyOf pre (relString p) ∈
        (getFilesToProcess mm tree pre params stage).2 ∧
      (∀ e ∈ (getFilesToProcess mm tree pre params stage).1,
        e.localPath ≠ p) ∧
      ∀ (deleteRemoved : Bool) (remoteKeys : List String),
        s3KeyOf pre (relString p) ∉
          getKeysToDelete remoteKeys
            (getFilesToProcess mm tree pre params stage).2 deleteRemoved := by
  have hkey : s3KeyOf pre (relString p) ∈
      (getFilesToProcess mm tree pre params stage).2 :=
    (getFilesToProcess_keys mm tree pre params stage _).mpr ⟨p, hp, rfl⟩
  refine ⟨hkey, ?_, ?_⟩
  · intro e he heq
    rw [getFilesToProcess_files] at he
    obtain ⟨q, _, hmk⟩ := List.mem_filterMap.mp he
    rw [mkEntry] at hmk
    cases hres2 : resolveS3Params mm (relString q) params stage false with
    | none => rw [hres2] at hmk; cases hmk
    | some ps =>
      rw [hres2] at hmk
      cases hmk
      exact absurd hres2 (by simp_all)
  · intro deleteRemoved remoteKeys hmem
    rw [getKeysToDelete] at hmem
    by_cases hdel : deleteRemoved = true
    · rw [if_pos hdel] at hmem
      have := List.of_mem_filter hmem
      simp only [Bool.not_eq_true'] at this
      have hnot : s3KeyOf pre (relString p) ∉
          (getFilesToProcess mm tree pre params stage).2 := by
        simpa using this
      exact hnot hkey
    · rw [if_neg hdel] at hmem
      cases hmem

/-- Witness for C1's amended theorem at the counterexample scenario. -/
theorem claim_C1_stage_excluded_key_still_protected_witness :
    "index.html" ∈
        (getFilesToProcess (fun _ _ => true) [.file "index.html"] ""
          (some [⟨"*.html", [("OnlyForStage", "prod")]⟩]) (some "dev")).2 ∧
      (∀ e ∈ (getFilesToProcess (fun _ _ => true) [.file "index.html"] ""
          (some [⟨"*.html", [("OnlyForStage", "prod")]⟩]) (some "dev")).1,
        e.localPath ≠ ["index.html"]) ∧
      ∀ (deleteRemoved : Bool) (remoteKeys : List String),
        "index.html" ∉
          getKeysToDelete remoteKeys
            (getFilesToProcess (fun _ _ => true) [.file "index.html"] ""
              (some [⟨"*.html", [("OnlyForStage", "prod")]⟩]) (some "dev")).2
            deleteRemoved := by
  exact claim_C1_stage_excluded_key_still_protected (fun _ _ => true)
    [.file "index.html"] "" (some [⟨"*.html", [("OnlyForStage", "prod")]⟩])
    (some "dev") ["index.html"] (by decide) (by decide)

/-- Whether a sync action is an upload call. -/
def isUpload : SyncAction → Bool
  | .upload _ => true
  | .deleteKeys _ => false

/-- The quoted digest is never the empty string (it carries two quote
characters). -/
theorem computeFileMD5_ne_empty (md5hex : List String → String)
    (p : List String) : computeFileMD5 md5hex p ≠ "" := by
  intro h
  have hlen := congrArg String.length h
  rw [computeFileMD5, String.length_append, String.length_append] at hlen
  have h1 : ("\"" : String).length = 1 := rfl
  have h2 : ("" : String).length = 0 := rfl
  rw [h1, h2] at hlen
  omega

/-- A candidate file whose remote counterpart carries exactly its computed
quoted MD5 digest as a simple (dash-free) entity-tag is not uploaded. -/
theorem shouldUpload_false_of_match (md5hex : List String → String)
    (rmap : List S3Obj) (e : FileProcessEntry)
    (hfind : remoteFind rmap e.s3Key =
      some ⟨e.s3Key, some (computeFileMD5 md5hex e.localPath)⟩)
    (hdash : (computeFileMD5 md5hex e.localPath).data.contains '-' = false) :
    shouldUpload md5hex rmap e = false := by
  rw [shouldUpload, hfind]
  simp only [computeFileMD5_ne_empty md5hex e.localPath, if_false,
    if_pos rfl]
  simp [computeFileMD5_ne_empty md5hex e.localPath]
  simpa using hdash

/-- C2: for every file processed by `uploadDirectory` whose remote
counterpart carries a simple (dash-free) entity-tag equal to the file's
computed MD5 content hash in quoted-hex form, no upload call is issued for
that file — in any tree, regardless of changed or new sibling files (the
candidate keys being duplicate-free, as on a real filesystem); consequently,
when every candidate file's remote tag matches (an unchanged tree), the
whole run issues zero upload calls. -/
theorem claim_C2_unchanged_tree_idempotent (mm : String → String → Bool)
    (md5hex : List String → String) (tree : List FsEntry) (pre : String)
    (params : Option (List ParamMatcher)) (stage : Option String)
    (deleteRemoved : Bool) (remote : List S3Obj) :
    (∀ e ∈ (getFilesToProcess mm tree pre params stage).1,
      remoteFind (buildRemoteMap remote) e.s3Key =
          some ⟨e.s3Key, some (computeFileMD5 md5hex e.localPath)⟩ →
        (computeFileMD5 md5hex e.localPath).data.contains '-' = false →
        ((getFilesToProcess mm tree pre params stage).1.map
          (fun e' => e'.s3Key)).Nodup →
        SyncAction.upload e.s3Key ∉
          uploadDirectoryActions mm md5hex tree pre params stage
            deleteRemoved remote) ∧
    ((∀ e ∈ (getFilesToProcess mm tree pre params stage).1,
        remoteFind (buildRemoteMap remote) e.s3Key =
            some ⟨e.s3Key, some (computeFileMD5 md5hex e.localPath)⟩ ∧
          (computeFileMD5 md5hex e.localPath).data.contains '-' = false) →
      (uploadDirectoryActions mm md5hex tree pre params stage deleteRemoved
        remote).filter isUpload = []) := by
  constructor
  · intro e he hfind hdash hnd hmem
    have hshd : shouldUpload md5hex (buildRemoteMap remote) e = false :=
      shouldUpload_false_of_match md5hex _ e hfind hdash
    simp only [uploadDirectoryActions] at hmem
    rcases List.mem_append.mp hmem with hmem1 | hmem2
    · obtain ⟨e', he'f, heq⟩ := List.mem_map.mp hmem1
      injection heq with hkey
      have he'mem : e' ∈ (getFilesToProcess mm tree pre params stage).1 :=
        List.mem_of_mem_filter he'f
      have hshd' := List.of_mem_filter he'f
      have hee : e' = e := List.inj_on_of_nodup_map hnd he'mem he hkey
      rw [hee, hshd] at hshd'
      exact absurd hshd' (by decide)
    · by_cases hks : (getKeysToDelete
          ((buildRemoteMap remote).map (fun o => o.key))
          (getFilesToProcess mm tree pre params stage).2
          deleteRemoved).isEmpty
      · rw [if_pos hks] at hmem2
        cases hmem2
      · rw [if_neg hks] at hmem2
        simp at hmem2
  · intro h
    have hall : ∀ e ∈ (getFilesToProcess mm tree pre params stage).1,
        shouldUpload md5hex (buildRemoteMap remote) e = false := by
      intro e he
      exact shouldUpload_false_of_match md5hex _ e (h e he).1 (h e he).2
    rw [uploadDirectoryActions, List.filter_append]
    have hfilter : (getFilesToProcess mm tree pre params stage).1.filter
        (shouldUpload md5hex (buildRemoteMap remote)) = [] := by
      rw [List.filter_eq_nil_iff]
      intro e he
      simp [hall e he]
    rw [hfilter]
    simp [isUpload]

/-- Witness for C2 on a mixed tree: `a.txt` is unchanged (remote tag equals
its quoted digest) while its sibling `b.txt` is new; the run uploads only
`b.txt` and issues no upload call for `a.txt`.  Also the round-trip at a
fully unchanged tree: zero upload calls. -/
theorem claim_C2_unchanged_tree_idempotent_witness :
    SyncAction.upload "a.txt" ∉
        uploadDirectoryActions (fun _ _ => true) (fun _ => "abc")
          [.file "a.txt", .file "b.txt"] "" none none false
          [⟨"a.txt", some "\"abc\""⟩] ∧
      uploadDirectoryActions (fun _ _ => true) (fun _ => "abc")
          [.file "a.txt", .file "b.txt"] "" none none false
          [⟨"a.txt", some "\"abc\""⟩] = [SyncAction.upload "b.txt"] ∧
      (uploadDirectoryActions (fun _ _ => true) (fun _ => "abc")
        [.file "a.txt"] "" none none false
        [⟨"a.txt", some "\"abc\""⟩]).filter isUpload = [] := by
  refine ⟨?_, by decide, ?_⟩
  · exact (claim_C2_unchanged_tree_idempotent (fun _ _ => true)
      (fun _ => "abc") [.file "a.txt", .file "b.txt"] "" none none false
      [⟨"a.txt", some "\"abc\""⟩]).1 ⟨["a.txt"], "a.txt", []⟩ (by decide)
      (by decide) (by decide) (by decide)
  · exact (claim_C2_unchanged_tree_idempotent (fun _ _ => true)
      (fun _ => "abc") [.file "a.txt"] "" none none false
      [⟨"a.txt", some "\"abc\""⟩]).2 (by decide)

/-- Counterexample to C4 at a concrete input: with configured key prefix
`assets` (no trailing slash) and local file `index.html` absent remotely, the
single upload call uses key `assets/index.html`, which is not the plain
string concatenation `assets` ++ `index.html`: `getFilesToProcess` first
normalizes a non-empty prefix to end with a slash. -/
theorem claim_C4_counterexample :
    uploadDirectoryActions (fun _ _ => true) (fun _ => "h")
        [.file "index.html"] "assets" none none false [] =
      [SyncAction.upload "assets/index.html"] ∧
    "assets/index.html" ≠ "assets" ++ "index.html" := by
  refine ⟨by decide, by decide⟩

theorem count_upload_map (k : String) :
    ∀ l : List FileProcessEntry,
      (l.map (fun e' => SyncAction.upload e'.s3Key)).count
          (SyncAction.upload k) =
        (l.map (fun e' => e'.s3Key)).count k := by
  intro l
  induction l with
  | nil => rfl
  | cons a t ih => simp [List.count_cons, ih]

/-- C4 (amended): for every candidate local file (one not excluded by
parameter resolution) absent remotely, `uploadDirectory` issues exactly one
upload call at the file's computed key, and that key is the
trailing-slash-normalized prefix concatenated with the forward-slash
relative path (the bare relative path when the prefix is empty — so plain
`prefix ++ path` only when the prefix is empty or already ends in `/`). -/
theorem claim_C4_new_files_uploaded_once (mm : String → String → Bool)
    (md5hex : List String → String) (tree : List FsEntry) (pre : String)
    (params : Option (List ParamMatcher)) (stage : Option String)
    (deleteRemoved : Bool) (remote : List S3Obj) (e : FileProcessEntry)
    (he : e ∈ (getFilesToProcess mm tree pre params stage).1)
    (habs : remoteFind (buildRemoteMap remote) e.s3Key = none)
    (hnd : ((getFilesToProcess mm tree pre params stage).1.map
      (fun e' => e'.s3Key)).Nodup) :
    (uploadDirectoryActions mm md5hex tree pre params stage deleteRemoved
        remote).count (SyncAction.upload e.s3Key) = 1 ∧
      ∃ p ∈ getLocalFiles tree, e.localPath = p ∧
        e.s3Key = (if pre = "" then relString p
          else ensureTrailingSlash pre ++ relString p) := by
  constructor
  · rw [uploadDirectoryActions, List.count_append]
    have hshd : shouldUpload md5hex (buildRemoteMap remote) e = true := by
      rw [shouldUpload, habs]
    have hmemf : e ∈ (getFilesToProcess mm tree pre params stage).1.filter
        (shouldUpload md5hex (buildRemoteMap remote)) :=
      List.mem_filter.mpr ⟨he, hshd⟩
    have hsub : List.Sublist
        (((getFilesToProcess mm tree pre params stage).1.filter
          (shouldUpload md5hex (buildRemoteMap remote))).map
          (fun e' => e'.s3Key))
        ((getFilesToProcess mm tree pre params stage).1.map
          (fun e' => e'.s3Key)) :=
      (List.filter_sublist _).map _
    have hnd2 := hnd.sublist hsub
    have hmemk : e.s3Key ∈ ((getFilesToProcess mm tree pre params
        stage).1.filter (shouldUpload md5hex (buildRemoteMap remote))).map
        (fun e' => e'.s3Key) :=
      List.mem_map.mpr ⟨e, hmemf, rfl⟩
    rw [count_upload_map, List.count_eq_one_of_mem hnd2 hmemk]
    have hdelcount :
        (if (getKeysToDelete ((buildRemoteMap remote).map (fun o => o.key))
              (getFilesToProcess mm tree pre params stage).2
              deleteRemoved).isEmpty
          then ([] : List SyncAction)
          else [SyncAction.deleteKeys
            (getKeysToDelete ((buildRemoteMap remote).map (fun o => o.key))
              (getFilesToProcess mm tree pre params stage).2
              deleteRemoved)]).count (SyncAction.upload e.s3Key) = 0 := by
      by_cases hks : (getKeysToDelete
          ((buildRemoteMap remote).map (fun o => o.key))
          (getFilesToProcess mm tree pre params stage).2
          deleteRemoved).isEmpty
      · simp [hks]
      · simp [hks, List.count_cons]
    rw [hdelcount]
  · rw [getFilesToProcess_files] at he
    obtain ⟨p, hp, hmk⟩ := List.mem_filterMap.mp he
    rw [mkEntry] at hmk
    cases hres : resolveS3Params mm (relString p) params stage false with
    | none => rw [hres] at hmk; cases hmk
    | some ps =>
      rw [hres] at hmk
      cases hmk
      exact ⟨p, hp, rfl, rfl⟩

/-- Witness for C4's amended theorem at the counterexample scenario. -/
theorem claim_C4_new_files_uploaded_once_witness :
    (uploadDirectoryActions (fun _ _ => true) (fun _ => "h")
        [.file "index.html"] "assets" none none false []).count
      (SyncAction.upload "assets/index.html") = 1 ∧
    ∃ p ∈ getLocalFiles [FsEntry.file "index.html"],
      (["index.html"] : List String) = p ∧
      "assets/index.html" = (if ("assets" : String) = "" then relString p
        else ensureTrailingSlash "assets" ++ relString p) := by
  exact claim_C4_new_files_uploaded_once (fun _ _ => true) (fun _ => "h")
    [.file "index.html"] "assets" none none false []
    ⟨["index.html"], "assets/index.html", []⟩ (by decide) (by decide)
    (by decide)

/-! ## C9: the enumerator does not filter the ignore-set -/

/-- Counterexample to C9 at a concrete input: `getLocalFiles` yields
`.DS_Store` files at the top level and inside a sub-directory; the
enumerator itself never consults the ignore-set. -/
theorem claim_C9_counterexample :
    [".DS_Store"] ∈
        getLocalFiles [.file ".DS_Store", .dir "sub" [.file ".DS_Store"]] ∧
      ["sub", ".DS_Store"] ∈
        getLocalFiles [.file ".DS_Store", .dir "sub" [.file ".DS_Store"]] ∧
      baseNameOf ["sub", ".DS_Store"] = some ".DS_Store" ∧
      ".DS_Store" ∈ IGNORED_FILE_NAMES := by
  refine ⟨by decide, by decide, by decide, by decide⟩

theorem mem_fileMapSet (fm : List FileToSync) (x f : FileToSync)
    (h : f ∈ fileMapSet fm x) : f ∈ fm ∨ f = x := by
  rw [fileMapSet] at h
  by_cases hb : fm.any (fun y => y.name = x.name)
  · rw [if_pos hb] at h
    obtain ⟨y, hy, hyf⟩ := List.mem_map.mp h
    by_cases hyx : y.name = x.name
    · rw [if_pos hyx] at hyf
      exact Or.inr hyf.symm
    · rw [if_neg hyx] at hyf
      exact Or.inl (hyf ▸ hy)
  · rw [if_neg hb] at h
    rcases List.mem_append.mp h with hf | hf
    · exact Or.inl hf
    · exact Or.inr (List.mem_singleton.mp hf)

theorem syncRulesGo_mem (mm : String → String → Bool) (stage : Option String)
    (p : List String) (rel : String) :
    ∀ (rules : List (String × List (String × String)))
      (fm : List FileToSync) (f : FileToSync),
      f ∈ syncRulesGo mm stage p rel fm rules → f ∈ fm ∨ f.name = p := by
  intro rules
  induction rules with
  | nil => intro fm f hf; exact Or.inl hf
  | cons r rest ih =>
    intro fm f hf
    obtain ⟨glob, prms⟩ := r
    rw [syncRulesGo] at hf
    by_cases hglob : glob = ""
    · rw [if_pos hglob] at hf
      exact ih fm f hf
    · rw [if_neg hglob] at hf
      by_cases hmm2 : mm rel glob
      · rw [if_pos hmm2] at hf
        split at hf
        next v htr =>
          split at hf
          next hst =>
            rcases ih _ f hf with hin | hname
            · rcases mem_fileMapSet _ _ _ hin with hin2 | rfl
              · exact Or.inl hin2
              · exact Or.inr rfl
            · exact Or.inr hname
          next hst =>
            exact Or.inl (List.mem_of_mem_filter hf)
        next htr =>
          rcases ih _ f hf with hin | hname
          · rcases mem_fileMapSet _ _ _ hin with hin2 | rfl
            · exact Or.inl hin2
            · exact Or.inr rfl
          · exact Or.inr hname
      · rw [if_neg hmm2] at hf
        exact ih fm f hf

/-- C9 (amended): `getLocalFiles` itself yields every regular non-symlink
file, including those whose basename is in the fixed ignore-set (see the
counterexample); the ignore-set exclusion is performed by the metadata sync
engine's file selection, which skips any walked file whose basename is
`.DS_Store` at every directory depth, so no selected file has an ignored
basename. -/
theorem claim_C9_ignored_filtered_in_metadata_sync
    (mm : String → String → Bool) (tree : List FsEntry)
    (params : List (String × List (String × String)))
    (stage : Option String) :
    ∀ f ∈ getFilesToSync mm tree params stage, ∀ b,
      baseNameOf f.name = some b → b ∉ IGNORED_FILE_NAMES := by
  have main : ∀ (files : List (List String)) (fm : List FileToSync),
      (∀ f ∈ fm, ∀ b, baseNameOf f.name = some b → b ∉ IGNORED_FILE_NAMES) →
      ∀ f ∈ files.foldl
        (fun fm2 p =>
          match baseNameOf p with
          | some b =>
            if IGNORED_FILE_NAMES.contains b then fm2
            else syncRulesGo mm stage p (relString p) fm2 params
          | none => syncRulesGo mm stage p (relString p) fm2 params)
        fm, ∀ b, baseNameOf f.name = some b → b ∉ IGNORED_FILE_NAMES := by
    intro files
    induction files with
    | nil => intro fm hinv f hf; exact hinv f hf
    | cons p rest ih =>
      intro fm hinv f hf
      rw [List.foldl_cons] at hf
      refine ih _ ?_ f hf
      intro f2 hf2 b hb
      split at hf2
      next b2 hbn =>
        split at hf2
        next hig => exact hinv f2 hf2 b hb
        next hig =>
          rcases syncRulesGo_mem mm stage p (relString p) params fm f2 hf2
            with hin | hname
          · exact hinv f2 hin b hb
          · rw [hname, hbn] at hb
            cases hb
            intro hmem
            exact hig (by simpa using hmem)
      next hbn =>
        rcases syncRulesGo_mem mm stage p (relString p) params fm f2 hf2
          with hin | hname
        · exact hinv f2 hin b hb
        · rw [hname, hbn] at hb
          cases hb
  intro f hf
  exact main (getLocalFiles tree) [] (by intro f2 hf2; cases hf2) f hf

/-- Witness for C9's amended theorem: a non-ignored selected file's basename
is not in the ignore-set. -/
theorem claim_C9_ignored_filtered_witness :
    "index.html" ∉ IGNORED_FILE_NAMES := by
  exact claim_C9_ignored_filtered_in_metadata_sync (fun _ _ => true)
    [.file ".DS_Store", .file "index.html"] [("*", [])] none
    ⟨["index.html"], []⟩ (by decide) "index.html" (by decide)

end S3Ferry
